import Mathlib

/-!
# Shallow embedding of the TheBot backtest engine

This file embeds `backtest_engine.py` (the trade-simulation core of the
repository) in Lean 4 and proves/refutes the frozen claims about it.

Modelling conventions:
* pandas/NumPy float series are embedded as `ℕ → Option ℚ`: `none` models a
  float NaN produced by an incomplete rolling window or a shifted-out value,
  `some q` a defined value.  Exact rationals idealise binary floats.
* Comparisons against NaN are `false` in pandas boolean masks; the `oLe`,
  `oGe`, `leLvl`, `geLvl` helpers reproduce that.
* Python `round(x, 2)` (round-half-to-even to 2 decimal places) is embedded
  as `round2` over ℚ.
* The only non-executable mathematics is the Sharpe ratio, whose source uses
  `np.sqrt`; it is embedded over ℝ with `Real.sqrt`.
-/

set_option maxRecDepth 4000

namespace TheBot

/-- One OHLC bar.  The engine reads only `high`, `low`, `close`
(`backtest_engine.py` uses `row["close"]` for both bid and ask, and
high/low/close for the indicator columns); `open`/`volume`/`time` are never
read after loading, so they are omitted from the embedding. -/
structure Bar where
  high : ℚ
  low : ℚ
  close : ℚ
deriving Repr, DecidableEq, Inhabited

/-- Total accessor used where pandas aligns by position; indices past the end
are never reached by the engine (all loops run over `range len(df)`). -/
def closeD (df : List Bar) (i : ℕ) : ℚ := (df.getD i default).close

def highD (df : List Bar) (i : ℕ) : ℚ := (df.getD i default).high

def lowD (df : List Bar) (i : ℕ) : ℚ := (df.getD i default).low

/-- The `close` column as an Option-valued series (no NaNs inside range). -/
def closeO (df : List Bar) (i : ℕ) : Option ℚ := (df.get? i).map Bar.close

/-- Embeds `close.diff()`: `delta[i] = close[i] - close[i-1]`, NaN at index 0. -/
def delta (df : List Bar) : ℕ → Option ℚ
  | 0 => none
  | i + 1 => do pure ((← closeO df (i + 1)) - (← closeO df i))

/-- Embeds `delta.clip(lower=0)` — clipping propagates NaN. -/
def gainF (df : List Bar) (i : ℕ) : Option ℚ := (delta df i).map (fun d => max d 0)

/-- Embeds `(-delta).clip(lower=0)`. -/
def lossF (df : List Bar) (i : ℕ) : Option ℚ := (delta df i).map (fun d => max (-d) 0)

/-- Embeds `series.rolling(n).mean()` with the pandas default `min_periods = n`:
defined only when the whole window of `n` trailing values exists and none of
them is NaN.  (pandas raises on `n = 0`; the guard makes it undefined.) -/
def rollingMean (n : ℕ) (f : ℕ → Option ℚ) (i : ℕ) : Option ℚ :=
  if n ≤ i + 1 ∧ 0 < n then
    ((List.range n).mapM (fun k => f (i + 1 - n + k))).map (fun vs => vs.sum / n)
  else none

/-- Embeds `series.rolling(n).std()` squared, pandas default `ddof = 1`: the sample
variance of the window.  For `n = 1` pandas yields NaN (division by `n-1=0`).
The Bollinger bands of the source are `sma ± k·std`; since `std = √variance` and
the sample variance is non-negative, `std` is NaN exactly when the variance
is; no claim reads a numeric band value, so the (irrational) square root
itself is not needed. -/
def rollingVarS (n : ℕ) (f : ℕ → Option ℚ) (i : ℕ) : Option ℚ :=
  if n ≤ i + 1 ∧ 2 ≤ n then
    ((List.range n).mapM (fun k => f (i + 1 - n + k))).map (fun vs =>
      let m : ℚ := vs.sum / (n : ℚ)
      (vs.map (fun v => (v - m) ^ 2)).sum / ((n - 1 : ℕ) : ℚ))
  else none

/-- Embeds `close.ewm(span=s, adjust=False).mean()` over a total series:
`y[0] = x[0]`, `y[i] = (1-α)·y[i-1] + α·x[i]` with `α = 2/(s+1)`. -/
def ewm (s : ℚ) (x : ℕ → ℚ) : ℕ → ℚ
  | 0 => x 0
  | i + 1 => (1 - 2 / (s + 1)) * ewm s x i + (2 / (s + 1)) * x (i + 1)

/-- A fully-present `StrategyProfile` (§3 of the spec); the raw, possibly
incomplete configuration dictionary is modelled separately for the
configuration-error claims. -/
structure Profile where
  rsiPeriod : ℕ
  rsiBuy : ℚ
  rsiSell : ℚ
  emaFastSpan : ℚ
  emaSlowSpan : ℚ
  macdFast : ℚ
  macdSlow : ℚ
  macdSignal : ℚ
  adxPeriod : ℕ
  adxMinStrength : ℚ
  atrPeriod : ℕ
  atrMinVol : ℚ
  bbPeriod : ℕ
  bbStdDev : ℚ
deriving Repr, DecidableEq

/-- Embeds `avg_gain = gain.rolling(period).mean()`. -/
def avgGain (p : Profile) (df : List Bar) (i : ℕ) : Option ℚ :=
  rollingMean p.rsiPeriod (gainF df) i

/-- Embeds `avg_loss = loss.rolling(period).mean()`. -/
def avgLoss (p : Profile) (df : List Bar) (i : ℕ) : Option ℚ :=
  rollingMean p.rsiPeriod (lossF df) i

/-- Embeds `rs = avg_gain / avg_loss.replace(0, np.nan)`: a zero average loss is
replaced by NaN before dividing, so `rs` is NaN there. -/
def rs (p : Profile) (df : List Bar) (i : ℕ) : Option ℚ :=
  match avgGain p df i, avgLoss p df i with
  | some g, some l => if l = 0 then none else some (g / l)
  | _, _ => none

/-- Embeds `rsi = 100 - (100 / (1 + rs))`; NaN propagates. -/
def rsi (p : Profile) (df : List Bar) (i : ℕ) : Option ℚ :=
  (rs p df i).map (fun r => 100 - 100 / (1 + r))

/-- Embeds `ema_fast` column (`ewm(span=ema_fast, adjust=False)`, no warm-up NaNs). -/
def emaFast (p : Profile) (df : List Bar) (i : ℕ) : ℚ := ewm p.emaFastSpan (closeD df) i

def emaSlow (p : Profile) (df : List Bar) (i : ℕ) : ℚ := ewm p.emaSlowSpan (closeD df) i

/-- MACD line: `ewm(fast_period) - ewm(slow_period)` of close. -/
def macdLine (p : Profile) (df : List Bar) (i : ℕ) : ℚ :=
  ewm p.macdFast (closeD df) i - ewm p.macdSlow (closeD df) i

/-- Embeds `macd_hist = macd - macd.ewm(span=signal_period, adjust=False).mean()`. -/
def macdHist (p : Profile) (df : List Bar) (i : ℕ) : ℚ :=
  macdLine p df i - ewm p.macdSignal (macdLine p df) i

/-- True range: `pd.concat([high-low, |high-prev_close|, |low-prev_close|]).max(axis=1)`.
`DataFrame.max` skips NaN, so at index 0 (where `close.shift()` is NaN) the
row maximum degenerates to `high - low`. -/
def tr (df : List Bar) : ℕ → ℚ
  | 0 => highD df 0 - lowD df 0
  | i + 1 =>
      max (highD df (i + 1) - lowD df (i + 1))
        (max |highD df (i + 1) - closeD df i| |lowD df (i + 1) - closeD df i|)

/-- Wrap a total column of length `df.length` as an Option series. -/
def inRange (df : List Bar) (f : ℕ → ℚ) (i : ℕ) : Option ℚ :=
  if i < df.length then some (f i) else none

/-- Embeds `atr = tr.rolling(atr.period).mean()` (plain rolling mean, not Wilder). -/
def atr (p : Profile) (df : List Bar) (i : ℕ) : Option ℚ :=
  rollingMean p.atrPeriod (inRange df (tr df)) i

/-- Embeds `dm_plus = (high - high.shift()).clip(lower=0)` — NaN at index 0. -/
def dmPlus (df : List Bar) : ℕ → Option ℚ
  | 0 => none
  | i + 1 =>
      if i + 1 < df.length then some (max (highD df (i + 1) - highD df i) 0) else none

/-- Embeds `dm_minus = (low.shift() - low).clip(lower=0)` — NaN at index 0. -/
def dmMinus (df : List Bar) : ℕ → Option ℚ
  | 0 => none
  | i + 1 =>
      if i + 1 < df.length then some (max (lowD df i - lowD df (i + 1)) 0) else none

/-- The `1e-10` epsilon guard used in the ADX proxy. -/
def eps : ℚ := 1 / 10 ^ 10

/-- Embeds `di_plus = dm_plus.rolling(adx.period).mean() / (atr_basic + 1e-10)`;
NaN if either operand is NaN. -/
def diPlus (p : Profile) (df : List Bar) (i : ℕ) : Option ℚ :=
  match rollingMean p.adxPeriod (dmPlus df) i, atr p df i with
  | some d, some a => some (d / (a + eps))
  | _, _ => none

def diMinus (p : Profile) (df : List Bar) (i : ℕ) : Option ℚ :=
  match rollingMean p.adxPeriod (dmMinus df) i, atr p df i with
  | some d, some a => some (d / (a + eps))
  | _, _ => none

/-- Embeds `adx = 100 * |di_plus - di_minus| / (di_plus + di_minus + 1e-10)`. -/
def adx (p : Profile) (df : List Bar) (i : ℕ) : Option ℚ :=
  match diPlus p df i, diMinus p df i with
  | some dp, some dm => some (100 * |dp - dm| / (dp + dm + eps))
  | _, _ => none

/-- Bollinger middle band: `close.rolling(bollinger.period).mean()`. -/
def bbMid (p : Profile) (df : List Bar) (i : ℕ) : Option ℚ :=
  rollingMean p.bbPeriod (closeO df) i

/-- Squared rolling standard deviation entering the upper/lower bands. -/
def bbVarS (p : Profile) (df : List Bar) (i : ℕ) : Option ℚ :=
  rollingVarS p.bbPeriod (closeO df) i

/-! ## Signal generation (`generate_signals`) -/

/-- pandas mask `series ≤ c` at one index: NaN compares `false`. -/
def oLe (x : Option ℚ) (c : ℚ) : Bool :=
  match x with
  | some v => decide (v ≤ c)
  | none => false

/-- pandas mask `series ≥ c` at one index: NaN compares `false`. -/
def oGe (x : Option ℚ) (c : ℚ) : Bool :=
  match x with
  | some v => decide (c ≤ v)
  | none => false

/-- Embeds `valid = (adx >= min_strength) & (atr >= min_volatility_factor)`. -/
def validAt (p : Profile) (df : List Bar) (i : ℕ) : Bool :=
  oGe (adx p df i) p.adxMinStrength && oGe (atr p df i) p.atrMinVol

/-- Embeds `buy_cond`: `macd_hist > 0 & rsi <= buy_threshold & ema_fast > ema_slow & valid`. -/
def buyCond (p : Profile) (df : List Bar) (i : ℕ) : Bool :=
  decide (0 < macdHist p df i) && oLe (rsi p df i) p.rsiBuy &&
    decide (emaSlow p df i < emaFast p df i) && validAt p df i

/-- Embeds `sell_cond`: `macd_hist < 0 & rsi >= sell_threshold & ema_fast < ema_slow & valid`. -/
def sellCond (p : Profile) (df : List Bar) (i : ℕ) : Bool :=
  decide (macdHist p df i < 0) && oGe (rsi p df i) p.rsiSell &&
    decide (emaFast p df i < emaSlow p df i) && validAt p df i

/-- Signal of one bar: the source assigns `signals[buy_cond] = 1` and then
`signals[sell_cond] = -1`, so where both masks held the later SELL write
would win (the two masks are in fact disjoint because of the opposite
EMA-order conjuncts). -/
def signalAt (p : Profile) (df : List Bar) (i : ℕ) : Int :=
  if sellCond p df i then -1 else if buyCond p df i then 1 else 0

/-! ## Trade simulation (`simulate_trades`) -/

/-- Python `round(x, 2)`: round to the nearest multiple of 0.01, ties to
even (banker rounding), idealised over exact rationals. -/
def rhe (x : ℚ) : ℤ :=
  let n := ⌊x⌋
  let f := x - n
  if f < 1 / 2 then n else if 1 / 2 < f then n + 1 else if 2 ∣ n then n else n + 1

def round2 (x : ℚ) : ℚ := (rhe (100 * x) : ℚ) / 100

/-- Embeds `lot = max(round(balance*(RISK_PCT/100)/sl_dist, 2), 0.01)` when the
(signed) stop distance is positive, else `0.01`. -/
def lotFor (balance riskPct slDist : ℚ) : ℚ :=
  if 0 < slDist then max (round2 (balance * (riskPct / 100) / slDist)) (1 / 100)
  else 1 / 100

inductive Dir
  | buy
  | sell
deriving Repr, DecidableEq

/-- An open position (`open_position` dict).  `sl`/`tp` are `Option ℚ`:
`none` models the float-NaN levels produced when the ATR of the entry bar is NaN
(the NaN arithmetic then makes every exit comparison false). -/
structure Position where
  dir : Dir
  entryPrice : ℚ
  entryIdx : ℕ
  sl : Option ℚ
  tp : Option ℚ
  lot : ℚ
deriving Repr, DecidableEq

/-- A closed trade (entry in the `trades` list); `reason = true` ↔ `"SL"`. -/
structure Trade where
  entryIdx : ℕ
  exitIdx : ℕ
  dir : Dir
  entryPrice : ℚ
  exitPrice : ℚ
  lot : ℚ
  pnl : ℚ
  reason : Bool
deriving Repr, DecidableEq

structure SimState where
  balance : ℚ
  pos : Option Position
  trades : List Trade
  equity : List ℚ
deriving Repr, DecidableEq

/-- Embeds `price <= level` with a possibly-NaN level (NaN compares false). -/
def leLvl (price : ℚ) (lvl : Option ℚ) : Bool :=
  match lvl with
  | some v => decide (price ≤ v)
  | none => false

/-- Embeds `price >= level` with a possibly-NaN level. -/
def geLvl (price : ℚ) (lvl : Option ℚ) : Bool :=
  match lvl with
  | some v => decide (v ≤ price)
  | none => false

/-- Stop-loss breach test of the exit check (`price_bid <= sl` for BUY,
`price_ask >= sl` for SELL; both prices are the close of the bar). -/
def slHitB (p : Position) (price : ℚ) : Bool :=
  match p.dir with
  | .buy => leLvl price p.sl
  | .sell => geLvl price p.sl

/-- Take-profit breach test (`price >= tp` for BUY, `price <= tp` for SELL). -/
def tpHitB (p : Position) (price : ℚ) : Bool :=
  match p.dir with
  | .buy => geLvl price p.tp
  | .sell => leLvl price p.tp

/-- Build the trade record appended on close; `pnl = (exit-entry)*lot` for
BUY and `(entry-exit)*lot` for SELL. -/
def closeTrade (p : Position) (i : ℕ) (exitP : ℚ) (isSL : Bool) : Trade :=
  let pnl :=
    match p.dir with
    | .buy => (exitP - p.entryPrice) * p.lot
    | .sell => (p.entryPrice - exitP) * p.lot
  ⟨p.entryIdx, i, p.dir, p.entryPrice, exitP, p.lot, pnl, isSL⟩

/-- Step 1 of the per-bar loop: the exit check.  The SL comparison comes
first (`if ... elif ...`), so it takes precedence when both levels are
breached; the exit price is exactly the stored `sl`/`tp`. -/
def exitStep (st : SimState) (i : ℕ) (price : ℚ) : SimState :=
  match st.pos with
  | none => st
  | some p =>
    if slHitB p price then
      let t := closeTrade p i (p.sl.getD 0) true
      ⟨st.balance + t.pnl, none, st.trades ++ [t], st.equity⟩
    else if tpHitB p price then
      let t := closeTrade p i (p.tp.getD 0) false
      ⟨st.balance + t.pnl, none, st.trades ++ [t], st.equity⟩
    else st

/-- Global-config values consumed by the loop: `RISK_PCT` and the
`atr_sl_multiplier` / `atr_tp_multiplier` lookups. -/
structure SimCfg where
  riskPct : ℚ
  slMult : ℚ
  tpMult : ℚ
deriving Repr, DecidableEq

/-- Position opened on a signal.  A NaN entry ATR poisons `sl`, `tp` and the
stop distance: the levels become NaN (`none`) and the `sl_dist > 0` test is
false, so `lot = 0.01`. -/
def mkPosition (dir : Dir) (price : ℚ) (i : ℕ) (atrI : Option ℚ) (cfg : SimCfg)
    (balance : ℚ) : Position :=
  match atrI with
  | some a =>
    match dir with
    | .buy =>
      let sl := price - a * cfg.slMult
      let tp := price + a * cfg.tpMult
      ⟨.buy, price, i, some sl, some tp, lotFor balance cfg.riskPct (price - sl)⟩
    | .sell =>
      let sl := price + a * cfg.slMult
      let tp := price - a * cfg.tpMult
      ⟨.sell, price, i, some sl, some tp, lotFor balance cfg.riskPct (sl - price)⟩
  | none => ⟨dir, price, i, none, none, 1 / 100⟩

/-- Step 2 of the per-bar loop: the entry check, only when flat after the
exit check (`if open_position is None and signals.iloc[idx] != 0`); a
signal of `1` opens BUY, any other nonzero signal opens SELL. -/
def entryStep (cfg : SimCfg) (st : SimState) (i : ℕ) (price : ℚ) (atrI : Option ℚ)
    (sig : Int) : SimState :=
  match st.pos with
  | some _ => st
  | none =>
    if sig ≠ 0 then
      { st with pos := some (mkPosition (if sig = 1 then .buy else .sell) price i atrI cfg st.balance) }
    else st

/-- One iteration of `for idx in range(len(df))`: exit check, entry check,
then `equity_curve.append(current_balance)`. -/
def stepBar (cfg : SimCfg) (st : SimState) (i : ℕ) (price : ℚ) (atrI : Option ℚ)
    (sig : Int) : SimState :=
  let st2 := entryStep cfg (exitStep st i price) i price atrI sig
  { st2 with equity := st2.equity ++ [st2.balance] }

def initState (initialBalance : ℚ) : SimState := ⟨initialBalance, none, [], []⟩

/-- State of the loop after its first `n` iterations. -/
def simulateN (cfg : SimCfg) (df : List Bar) (atrF : ℕ → Option ℚ) (sigF : ℕ → Int)
    (init : ℚ) (n : ℕ) : SimState :=
  (List.range n).foldl (fun st i => stepBar cfg st i (closeD df i) (atrF i) (sigF i))
    (initState init)

/-- Embeds `simulate_trades(df, signals, profile, initial_balance)`: consumes the
close prices, the `atr` column and the signal series in chronological
order. -/
def simulate (cfg : SimCfg) (df : List Bar) (atrF : ℕ → Option ℚ) (sigF : ℕ → Int)
    (init : ℚ) : SimState :=
  simulateN cfg df atrF sigF init df.length

/-- The whole-pipeline simulation: the `atr` column and signals are the ones
computed by `calculate_indicators_vectorized` / `generate_signals`. -/
def simulateTrades (cfg : SimCfg) (p : Profile) (df : List Bar) (init : ℚ) : SimState :=
  simulate cfg df (atr p df) (signalAt p df) init

/-! ## Metrics (`compute_metrics`) -/

/-- Embeds `np.max` over a nonempty list (the source only evaluates it with a
nonempty equity curve; on `[]` NumPy raises, here the value is junk `0`
and never relied upon). -/
def listMax (xs : List ℚ) : ℚ := xs.foldl max (xs.headD 0)

def listMin (xs : List ℚ) : ℚ := xs.foldl min (xs.headD 0)

/-- Lines 292–294: `drawdown = (equity - equity.max()) / equity.max()`;
`max_dd = np.min(drawdown) * 100`.  Note the *global* maximum of the whole
curve, not a running maximum. -/
def maxDD (equity : List ℚ) : ℚ :=
  listMin (equity.map (fun e => (e - listMax equity) / listMax equity)) * 100

/-- Formula of §4.4 of the spec, written from its words: `min over t of
(equity[t] − running_max(equity[0..t])) / running_max × 100`. -/
def runningMax (equity : List ℚ) (t : ℕ) : ℚ := listMax (equity.take (t + 1))

def maxDDSpec (equity : List ℚ) : ℚ :=
  listMin ((List.range equity.length).map (fun t =>
    (equity.getD t 0 - runningMax equity t) / runningMax equity t)) * 100

/-- Embeds `returns = np.diff(equity) / equity[:-1]`. -/
def returnsOf (equity : List ℚ) : List ℚ :=
  (equity.zip equity.tail).map (fun ab => (ab.2 - ab.1) / ab.1)

/-- Embeds `np.mean`. -/
def npMean (xs : List ℚ) : ℚ := xs.sum / (xs.length : ℚ)

/-- Embeds `np.std(xs)^2` (population variance, NumPy default `ddof = 0`). -/
def npVar (xs : List ℚ) : ℚ :=
  (xs.map (fun x => (x - npMean xs) ^ 2)).sum / (xs.length : ℚ)

/-- Embeds `np.std` — the one genuinely irrational quantity of the metrics. -/
noncomputable def npStd (xs : List ℚ) : ℝ := Real.sqrt (npVar xs)

/-- Lines 296–298: `sharpe = np.mean(returns)/(np.std(returns)+1e-10)*np.sqrt(252)
if len(returns) > 1 else 0.0`. -/
noncomputable def sharpe (equity : List ℚ) : ℝ :=
  if 1 < (returnsOf equity).length then
    ((npMean (returnsOf equity) : ℝ) / (npStd (returnsOf equity) + 1 / 10 ^ 10)) *
      Real.sqrt 252
  else 0

/-- Sharpe of §4.4 of the spec, written from its words: `returns[t] =
equity[t]/equity[t-1] − 1`, `mean/std × sqrt(252)` with the epsilon guard,
and `0` if there are fewer than 2 equity points. -/
def specReturns (equity : List ℚ) : List ℚ :=
  (List.range (equity.length - 1)).map (fun t => equity.getD (t + 1) 0 / equity.getD t 0 - 1)

noncomputable def sharpeSpec (equity : List ℚ) : ℝ :=
  if equity.length < 2 then 0
  else
    ((npMean (specReturns equity) : ℝ) / (npStd (specReturns equity) + 1 / 10 ^ 10)) *
      Real.sqrt 252

/-- Amended spec Sharpe: the cutoff of the source is `len(returns) > 1`,
i.e. the formula applies only to equity curves with *more than two*
points; shorter curves (including two-point ones) report `0`. -/
noncomputable def sharpeSpecAmended (equity : List ℚ) : ℝ :=
  if equity.length ≤ 2 then 0
  else
    ((npMean (specReturns equity) : ℝ) / (npStd (specReturns equity) + 1 / 10 ^ 10)) *
      Real.sqrt 252

/-- Python `round(x, 2)` applied to the (real-valued) Sharpe before it is
stored in the metrics record. -/
noncomputable def rheR (x : ℝ) : ℤ :=
  let n := ⌊x⌋
  let f := x - n
  if f < 1 / 2 then n else if 1 / 2 < f then n + 1 else if 2 ∣ n then n else n + 1

noncomputable def round2R (x : ℝ) : ℝ := (rheR (100 * x) : ℝ) / 100

/-- The metrics record returned by `compute_metrics` (dict-key order of the
source). -/
structure Metrics where
  totalTrades : ℕ
  winningTrades : ℕ
  losingTrades : ℕ
  winRate : ℚ
  totalPnl : ℚ
  avgTradePnl : ℚ
  maxWin : ℚ
  maxLoss : ℚ
  sharpe : ℝ
  maxDrawdown : ℚ
  finalBalance : ℚ
  returnPct : ℚ

/-- The zero-trade early return of `compute_metrics` (lines 269–283): all
derived fields neutral, `final_balance = initial_balance` unrounded. -/
def neutralMetrics (init : ℚ) : Metrics :=
  ⟨0, 0, 0, 0, 0, 0, 0, 0, 0, 0, init, 0⟩

noncomputable def computeMetrics (trades : List Trade) (equity : List ℚ) (init : ℚ) :
    Metrics :=
  if trades = [] then neutralMetrics init
  else
    let winning := trades.filter (fun t => 0 < t.pnl)
    let losing := trades.filter (fun t => t.pnl < 0)
    let totalPnl := (trades.map Trade.pnl).sum
    let winRate := (winning.length : ℚ) / (trades.length : ℚ) * 100
    let finalBalance := equity.getLast?.getD init
    let returnPct := (finalBalance - init) / init * 100
    ⟨trades.length, winning.length, losing.length, round2 winRate, round2 totalPnl,
      round2 (totalPnl / (trades.length : ℚ)),
      if winning = [] then 0 else round2 (listMax (winning.map Trade.pnl)),
      if losing = [] then 0 else round2 (listMin (losing.map Trade.pnl)),
      round2R (sharpe equity), round2 (maxDD equity), round2 finalBalance,
      round2 returnPct⟩

/-! ## Configuration and the full run (`run_backtest`)

The profile reaches the engine as a nested, dynamically-keyed dictionary;
a missing key raises `KeyError` at its first access, which happens inside
indicator/signal computation — before any trade is simulated.  The three
top-level options `risk_percentage`, `atr_sl_multiplier` and
`atr_tp_multiplier` are instead read with `config.get(key, default)`. -/

/-- A possibly-incomplete `StrategyProfile` dictionary. -/
structure RawProfile where
  rsiPeriod : Option ℕ
  rsiBuy : Option ℚ
  rsiSell : Option ℚ
  emaFastSpan : Option ℚ
  emaSlowSpan : Option ℚ
  macdFast : Option ℚ
  macdSlow : Option ℚ
  macdSignal : Option ℚ
  adxPeriod : Option ℕ
  adxMinStrength : Option ℚ
  atrPeriod : Option ℕ
  atrMinVol : Option ℚ
  bbPeriod : Option ℕ
  bbStdDev : Option ℚ
deriving Repr, DecidableEq

structure Config where
  profiles : List (String × RawProfile)
  riskPercentage : Option ℚ
  atrSlMultiplier : Option ℚ
  atrTpMultiplier : Option ℚ

/-- Embeds `RISK_PCT = config.get("risk_percentage", 1.0)` — silent default. -/
def riskPct (c : Config) : ℚ := c.riskPercentage.getD 1

/-- Embeds `sl_mult = config.get("atr_sl_multiplier", 2)` — silent default. -/
def slMult (c : Config) : ℚ := c.atrSlMultiplier.getD 2

/-- Embeds `tp_mult = config.get("atr_tp_multiplier", 4)` — silent default. -/
def tpMult (c : Config) : ℚ := c.atrTpMultiplier.getD 4

def simCfg (c : Config) : SimCfg := ⟨riskPct c, slMult c, tpMult c⟩

/-- The nested profile-dictionary keys the engine reads (dotted paths such
as `rsi.period`), as an enumeration so that a raised `KeyError` can carry
the offending key. -/
inductive ProfileKey
  | rsiPeriod
  | rsiBuy
  | rsiSell
  | emaFastSpan
  | emaSlowSpan
  | macdFast
  | macdSlow
  | macdSignal
  | adxPeriod
  | adxMinStrength
  | atrPeriod
  | atrMinVol
  | bbPeriod
  | bbStdDev
deriving Repr, DecidableEq

inductive RunError
  | profileNotFound (name : String)
  | keyError (key : ProfileKey)
deriving Repr, DecidableEq

/-- Dictionary access `profile[...][...]`: a missing key raises `KeyError`. -/
def getKey {α : Type} (k : ProfileKey) (o : Option α) : Except RunError α :=
  match o with
  | some v => .ok v
  | none => .error (.keyError k)

/-- All profile-dictionary accesses performed by
`calculate_indicators_vectorized` and `generate_signals`, in source order;
the first missing key aborts with its `KeyError`, before `simulate_trades`
runs. -/
def readProfile (rp : RawProfile) : Except RunError Profile := do
  let rsiP ← getKey .rsiPeriod rp.rsiPeriod
  let emaF ← getKey .emaFastSpan rp.emaFastSpan
  let emaS ← getKey .emaSlowSpan rp.emaSlowSpan
  let mF ← getKey .macdFast rp.macdFast
  let mS ← getKey .macdSlow rp.macdSlow
  let mSig ← getKey .macdSignal rp.macdSignal
  let atrP ← getKey .atrPeriod rp.atrPeriod
  let adxP ← getKey .adxPeriod rp.adxPeriod
  let bbP ← getKey .bbPeriod rp.bbPeriod
  let bbS ← getKey .bbStdDev rp.bbStdDev
  let adxMin ← getKey .adxMinStrength rp.adxMinStrength
  let atrMin ← getKey .atrMinVol rp.atrMinVol
  let rsiB ← getKey .rsiBuy rp.rsiBuy
  let rsiS ← getKey .rsiSell rp.rsiSell
  pure ⟨rsiP, rsiB, rsiS, emaF, emaS, mF, mS, mSig, adxP, adxMin, atrP, atrMin, bbP, bbS⟩

/-- Embeds `profileComplete rp = true` iff every recognised profile key is present. -/
def profileComplete (rp : RawProfile) : Bool :=
  rp.rsiPeriod.isSome && rp.rsiBuy.isSome && rp.rsiSell.isSome &&
    rp.emaFastSpan.isSome && rp.emaSlowSpan.isSome && rp.macdFast.isSome &&
    rp.macdSlow.isSome && rp.macdSignal.isSome && rp.adxPeriod.isSome &&
    rp.adxMinStrength.isSome && rp.atrPeriod.isSome && rp.atrMinVol.isSome &&
    rp.bbPeriod.isSome && rp.bbStdDev.isSome

/-- Embeds `PROFILES.get(profile_name, {})` followed by `if not profile: return`
(an unknown or empty profile aborts the run with a message). -/
def lookupProfile (c : Config) (name : String) : Option RawProfile :=
  c.profiles.lookup name

/-- The result record assembled by `run_backtest`. -/
structure RunResult where
  metrics : Metrics
  trades : List Trade
  totalTradesCount : ℕ

/-- Embeds `run_backtest` on an already-loaded bar series: resolve the profile,
compute indicators and signals (a missing profile key aborts here), simulate
with `initial_balance = 10000`, aggregate metrics. -/
noncomputable def runBacktest (df : List Bar) (c : Config) (name : String) :
    Except RunError RunResult :=
  match lookupProfile c name with
  | none => .error (.profileNotFound name)
  | some rp => do
    let p ← readProfile rp
    let st := simulateTrades (simCfg c) p df 10000
    let m := computeMetrics st.trades st.equity 10000
    pure ⟨m, st.trades.take 50, st.trades.length⟩

/-! ## Concrete inputs used by counterexamples and witnesses -/

/-- A degenerate bar with `high = low = close` (true range 0 against an
identical previous close). -/
def flatBar (q : ℚ) : Bar := ⟨q, q, q⟩

/-- Three rising closes: over an RSI window of 2 the average loss is 0. -/
def dfUp : List Bar := [flatBar 1, flatBar 2, flatBar 3]

/-- A small but fully-populated profile used for concrete evaluations. -/
def pTest : Profile := ⟨2, 30, 70, 2, 4, 4, 2, 2, 2, 0, 2, 0, 2, 2⟩

/-! ## Fold helpers for `np.max` / `np.min` -/

lemma le_foldl_max (xs : List ℚ) : ∀ a : ℚ, a ≤ xs.foldl max a := by
  induction xs with
  | nil => intro a; exact le_refl a
  | cons y ys ih =>
    intro a
    rw [List.foldl_cons]
    exact le_trans (le_max_left a y) (ih (max a y))

lemma mem_le_foldl_max (xs : List ℚ) : ∀ a : ℚ, ∀ x ∈ xs, x ≤ xs.foldl max a := by
  induction xs with
  | nil => intro a x hx; cases hx
  | cons y ys ih =>
    intro a x hx
    rw [List.foldl_cons]
    rcases List.mem_cons.mp hx with h | h
    · rw [h]; exact le_trans (le_max_right a y) (le_foldl_max ys (max a y))
    · exact ih (max a y) x h

lemma foldl_max_eq_or_mem (xs : List ℚ) : ∀ a : ℚ, xs.foldl max a = a ∨ xs.foldl max a ∈ xs := by
  induction xs with
  | nil => intro a; left; rfl
  | cons y ys ih =>
    intro a
    rw [List.foldl_cons]
    rcases ih (max a y) with h | h
    · rw [h]
      rcases max_choice a y with h1 | h1
      · left; exact h1
      · right; rw [h1]; exact List.mem_cons_self y ys
    · right; exact List.mem_cons_of_mem y h

lemma foldl_min_le (xs : List ℚ) : ∀ a : ℚ, xs.foldl min a ≤ a := by
  induction xs with
  | nil => intro a; exact le_refl a
  | cons y ys ih =>
    intro a
    rw [List.foldl_cons]
    exact le_trans (ih (min a y)) (min_le_left a y)

lemma foldl_min_le_mem (xs : List ℚ) : ∀ a : ℚ, ∀ x ∈ xs, xs.foldl min a ≤ x := by
  induction xs with
  | nil => intro a x hx; cases hx
  | cons y ys ih =>
    intro a x hx
    rw [List.foldl_cons]
    rcases List.mem_cons.mp hx with h | h
    · rw [h]; exact le_trans (foldl_min_le ys (min a y)) (min_le_right a y)
    · exact ih (min a y) x h

lemma foldl_min_eq_or_mem (xs : List ℚ) : ∀ a : ℚ, xs.foldl min a = a ∨ xs.foldl min a ∈ xs := by
  induction xs with
  | nil => intro a; left; rfl
  | cons y ys ih =>
    intro a
    rw [List.foldl_cons]
    rcases ih (min a y) with h | h
    · rw [h]
      rcases min_choice a y with h1 | h1
      · left; exact h1
      · right; rw [h1]; exact List.mem_cons_self y ys
    · right; exact List.mem_cons_of_mem y h

lemma le_listMax (xs : List ℚ) (x : ℚ) (hx : x ∈ xs) : x ≤ listMax xs :=
  mem_le_foldl_max xs (xs.headD 0) x hx

lemma listMax_mem (xs : List ℚ) (h : xs ≠ []) : listMax xs ∈ xs := by
  rcases foldl_max_eq_or_mem xs (xs.headD 0) with h1 | h1
  · unfold listMax
    rw [h1]
    cases xs with
    | nil => exact absurd rfl h
    | cons y ys => exact List.mem_cons_self y ys
  · exact h1

lemma listMin_le (xs : List ℚ) (x : ℚ) (hx : x ∈ xs) : listMin xs ≤ x :=
  foldl_min_le_mem xs (xs.headD 0) x hx

lemma listMin_mem (xs : List ℚ) (h : xs ≠ []) : listMin xs ∈ xs := by
  rcases foldl_min_eq_or_mem xs (xs.headD 0) with h1 | h1
  · unfold listMin
    rw [h1]
    cases xs with
    | nil => exact absurd rfl h
    | cons y ys => exact List.mem_cons_self y ys
  · exact h1

/-! ## Claim C1: max drawdown -/

/-- C1 (counterexample): on the non-decreasing two-point equity curve
`[10000, 10100]` the reported `max_drawdown` is `-100/101` (strictly
negative), while the running-maximum formula stated by the claim evaluates
to `0`; so the reported value neither equals that formula nor is `0` on a
non-decreasing curve. -/
theorem C1_cex :
    List.Pairwise (· ≤ ·) [(10000 : ℚ), 10100] ∧
    maxDD [10000, 10100] = -100 / 101 ∧
    maxDDSpec [10000, 10100] = 0 ∧
    maxDD [10000, 10100] ≠ maxDDSpec [10000, 10100] ∧
    maxDD [10000, 10100] < 0 := by with_unfolding_all decide

/-- C1 (amended): the reported `max_drawdown` is computed against the
*global* maximum `M` of the whole equity curve, `min over t of
(equity[t] − M)/M × 100`.  For every nonempty curve whose maximum is
positive it is ≤ 0, and it equals 0 iff every equity value equals that
maximum (a constant curve) — not iff the curve is non-decreasing. -/
theorem C1_thm (equity : List ℚ) (hne : equity ≠ []) (hpos : 0 < listMax equity) :
    maxDD equity ≤ 0 ∧
      (maxDD equity = 0 ↔ ∀ x ∈ equity, x = listMax equity) := by
  have hmapne : equity.map (fun e => (e - listMax equity) / listMax equity) ≠ [] := by
    simpa using hne
  have hle : ∀ x ∈ equity, (x - listMax equity) / listMax equity ≤ 0 := by
    intro x hx
    apply div_nonpos_of_nonpos_of_nonneg
    · exact sub_nonpos.mpr (le_listMax equity x hx)
    · exact le_of_lt hpos
  have hmin_le0 :
      listMin (equity.map (fun e => (e - listMax equity) / listMax equity)) ≤ 0 := by
    rcases List.mem_map.mp (listMin_mem _ hmapne) with ⟨e, he, heq⟩
    rw [← heq]
    exact hle e he
  constructor
  · have h100 := mul_le_mul_of_nonneg_right hmin_le0 (by norm_num : (0 : ℚ) ≤ 100)
    simpa [maxDD] using h100
  · constructor
    · intro h0 x hx
      have hmin0 :
          listMin (equity.map (fun e => (e - listMax equity) / listMax equity)) = 0 := by
        have hmul :
            listMin (equity.map (fun e => (e - listMax equity) / listMax equity)) * 100
              = 0 := by
          simpa [maxDD] using h0
        rcases mul_eq_zero.mp hmul with h | h
        · exact h
        · norm_num at h
      have h1 : (0 : ℚ) ≤ (x - listMax equity) / listMax equity := by
        rw [← hmin0]
        exact listMin_le _ _ (List.mem_map_of_mem _ hx)
      have h2 := hle x hx
      have h3 : (x - listMax equity) / listMax equity = 0 := le_antisymm h2 h1
      rcases div_eq_zero_iff.mp h3 with h4 | h4
      · linarith [sub_eq_zero.mp h4]
      · exact absurd h4 (ne_of_gt hpos)
    · intro hall
      have hzero : ∀ v ∈ equity.map (fun e => (e - listMax equity) / listMax equity),
          v = 0 := by
        intro v hv
        rcases List.mem_map.mp hv with ⟨e, he, heq⟩
        rw [← heq, hall e he]
        simp
      have hminmem := listMin_mem _ hmapne
      have : listMin (equity.map (fun e => (e - listMax equity) / listMax equity)) = 0 :=
        hzero _ hminmem
      simp [maxDD, this]

/-- Witness for `C1_thm` at the concrete curve `[10000, 9000, 9500]`. -/
theorem C1_wit :
    ([(10000 : ℚ), 9000, 9500] ≠ []) ∧
    0 < listMax [(10000 : ℚ), 9000, 9500] ∧
    (maxDD [(10000 : ℚ), 9000, 9500] ≤ 0 ∧
      (maxDD [(10000 : ℚ), 9000, 9500] = 0 ↔
        ∀ x ∈ [(10000 : ℚ), 9000, 9500], x = listMax [(10000 : ℚ), 9000, 9500])) :=
  ⟨by decide, by with_unfolding_all decide,
    C1_thm [10000, 9000, 9500] (by decide) (by with_unfolding_all decide)⟩

/-! ## Claim C2: RSI at zero average loss -/

/-- C2 (counterexample): with RSI period 2 on three strictly rising closes,
the rolling average loss at index 2 is defined and equal to 0, yet the RSI
there is NaN (undefined) — not 100. -/
theorem C2_cex :
    avgLoss pTest dfUp 2 = some 0 ∧ rsi pTest dfUp 2 = none ∧
    ¬ rsi pTest dfUp 2 = some 100 := by with_unfolding_all decide

lemma rs_none_of_avgLoss_zero (p : Profile) (df : List Bar) (i : ℕ)
    (h : avgLoss p df i = some 0) : rs p df i = none := by
  unfold rs
  rw [h]
  cases hg : avgGain p df i <;> simp

/-- An undefined rsi, adx or atr value forces the signal to HOLD: NaN
comparisons are false, so the corresponding mask conjunct fails. -/
lemma signalAt_zero_of_none (p : Profile) (df : List Bar) (i : ℕ)
    (h : rsi p df i = none ∨ adx p df i = none ∨ atr p df i = none) :
    signalAt p df i = 0 := by
  rcases h with h | h | h <;>
    simp [signalAt, buyCond, sellCond, validAt, oLe, oGe, h]

/-- C2 (amended): at any index where the rolling average loss is defined and
zero, the RSI is *undefined* (`avg_loss.replace(0, nan)` turns the
denominator into NaN), not 100; the undefined value disqualifies the signal
(HOLD) rather than propagating a failure. -/
theorem C2_thm (p : Profile) (df : List Bar) (i : ℕ)
    (h : avgLoss p df i = some 0) :
    rsi p df i = none ∧ signalAt p df i = 0 := by
  have hr : rs p df i = none := rs_none_of_avgLoss_zero p df i h
  have hrsi : rsi p df i = none := by
    unfold rsi
    rw [hr]
    rfl
  exact ⟨hrsi, signalAt_zero_of_none p df i (Or.inl hrsi)⟩

/-- Witness for `C2_thm` at the concrete rising series. -/
theorem C2_wit :
    avgLoss pTest dfUp 2 = some 0 ∧
    (rsi pTest dfUp 2 = none ∧ signalAt pTest dfUp 2 = 0) :=
  ⟨by with_unfolding_all decide, C2_thm pTest dfUp 2 (by with_unfolding_all decide)⟩

/-! ## Claim C7: warm-up undefinedness forces HOLD -/

lemma mapM_none_of_mem {α β : Type} {f : α → Option β} {l : List α} {a : α}
    (ha : a ∈ l) (hf : f a = none) : l.mapM f = none := by
  induction l with
  | nil => cases ha
  | cons x xs ih =>
    rw [List.mapM_cons]
    rcases List.mem_cons.mp ha with h | h
    · rw [h] at hf
      rw [hf]
      rfl
    · cases hx : f x with
      | none => rfl
      | some v =>
        rw [ih h]
        rfl

lemma rollingMean_none_of_short {n i : ℕ} (f : ℕ → Option ℚ) (h : i + 1 < n) :
    rollingMean n f i = none := by
  unfold rollingMean
  rw [if_neg]
  rintro ⟨h1, -⟩
  exact absurd h1 (not_le.mpr h)

lemma rollingMean_none_of_entry {n i k : ℕ} (f : ℕ → Option ℚ) (hk : k < n)
    (hf : f (i + 1 - n + k) = none) : rollingMean n f i = none := by
  unfold rollingMean
  split
  · have h2 : ((List.range n).mapM fun j => f (i + 1 - n + j)) = none :=
      mapM_none_of_mem (List.mem_range.mpr hk) hf
    rw [h2]
    rfl
  · rfl

/-- A series whose index 0 is NaN (diff/shift-derived) has an undefined
rolling mean at every index below the window length. -/
lemma rollingMean_none_of_lt_of_zero {n i : ℕ} (f : ℕ → Option ℚ) (hf0 : f 0 = none)
    (h : i < n) : rollingMean n f i = none := by
  rcases lt_or_ge (i + 1) n with h1 | h1
  · exact rollingMean_none_of_short f h1
  · refine rollingMean_none_of_entry (k := 0) f (by omega) ?_
    have h0 : i + 1 - n + 0 = 0 := by omega
    rw [h0]
    exact hf0

lemma avgGain_none_of_lt (p : Profile) (df : List Bar) {i : ℕ} (h : i < p.rsiPeriod) :
    avgGain p df i = none :=
  rollingMean_none_of_lt_of_zero (gainF df) rfl h

lemma rs_none_of_avgGain_none (p : Profile) (df : List Bar) (i : ℕ)
    (h : avgGain p df i = none) : rs p df i = none := by
  unfold rs
  rw [h]

lemma rsi_none_of_lt (p : Profile) (df : List Bar) {i : ℕ} (h : i < p.rsiPeriod) :
    rsi p df i = none := by
  have hr := rs_none_of_avgGain_none p df i (avgGain_none_of_lt p df h)
  unfold rsi
  rw [hr]
  rfl

lemma atr_none_of_short (p : Profile) (df : List Bar) {i : ℕ} (h : i + 1 < p.atrPeriod) :
    atr p df i = none :=
  rollingMean_none_of_short _ h

lemma diPlus_none_of_dm_none (p : Profile) (df : List Bar) (i : ℕ)
    (h : rollingMean p.adxPeriod (dmPlus df) i = none) : diPlus p df i = none := by
  unfold diPlus
  rw [h]

lemma diPlus_none_of_atr_none (p : Profile) (df : List Bar) (i : ℕ)
    (h : atr p df i = none) : diPlus p df i = none := by
  unfold diPlus
  rw [h]
  cases rollingMean p.adxPeriod (dmPlus df) i <;> rfl

lemma adx_none_of_diPlus_none (p : Profile) (df : List Bar) (i : ℕ)
    (h : diPlus p df i = none) : adx p df i = none := by
  unfold adx
  rw [h]

lemma adx_none_of_lt (p : Profile) (df : List Bar) {i : ℕ} (h : i < p.adxPeriod) :
    adx p df i = none :=
  adx_none_of_diPlus_none p df i (diPlus_none_of_dm_none p df i
    (rollingMean_none_of_lt_of_zero (dmPlus df) rfl h))

lemma adx_none_of_atr_none (p : Profile) (df : List Bar) (i : ℕ)
    (h : atr p df i = none) : adx p df i = none :=
  adx_none_of_diPlus_none p df i (diPlus_none_of_atr_none p df i h)

lemma bbMid_none_of_short (p : Profile) (df : List Bar) {i : ℕ}
    (h : i + 1 < p.bbPeriod) : bbMid p df i = none :=
  rollingMean_none_of_short _ h

lemma bbVarS_none_of_short (p : Profile) (df : List Bar) {i : ℕ}
    (h : i + 1 < p.bbPeriod) : bbVarS p df i = none := by
  unfold bbVarS rollingVarS
  rw [if_neg]
  rintro ⟨h1, -⟩
  omega

/-- C7: for every index below the warm-up length of a rolling-window
indicator the value is undefined (RSI below `rsi.period`, ATR below
`atr.period - 1`, the ADX proxy below `adx.period` and wherever its ATR
input is undefined, Bollinger below `bollinger.period - 1`); and any
undefined rsi/adx/atr input to the signal rule forces HOLD.  The
EMA/MACD columns use `ewm`, which has no warm-up window. -/
theorem C7_thm (p : Profile) (df : List Bar) (i : ℕ) :
    (i < p.rsiPeriod → rsi p df i = none) ∧
    (i + 1 < p.atrPeriod → atr p df i = none) ∧
    (i < p.adxPeriod → adx p df i = none) ∧
    (i + 1 < p.atrPeriod → adx p df i = none) ∧
    (i + 1 < p.bbPeriod → bbMid p df i = none ∧ bbVarS p df i = none) ∧
    ((rsi p df i = none ∨ adx p df i = none ∨ atr p df i = none) →
      signalAt p df i = 0) := by
  refine ⟨fun h => rsi_none_of_lt p df h, fun h => atr_none_of_short p df h,
    fun h => adx_none_of_lt p df h,
    fun h => adx_none_of_atr_none p df i (atr_none_of_short p df h),
    fun h => ⟨bbMid_none_of_short p df h, bbVarS_none_of_short p df h⟩,
    signalAt_zero_of_none p df i⟩

/-- Witness for `C7_thm` on concrete warm-up indices. -/
theorem C7_wit :
    rsi pTest dfUp 0 = none ∧ atr pTest dfUp 0 = none ∧ adx pTest dfUp 1 = none ∧
    signalAt pTest dfUp 0 = 0 :=
  ⟨(C7_thm pTest dfUp 0).1 (by decide), (C7_thm pTest dfUp 0).2.1 (by decide),
    (C7_thm pTest dfUp 1).2.2.1 (by decide),
    (C7_thm pTest dfUp 0).2.2.2.2.2 (Or.inl ((C7_thm pTest dfUp 0).1 (by decide)))⟩

/-! ## Step lemmas for the position simulator -/

lemma entryStep_trades (cfg : SimCfg) (st : SimState) (i : ℕ) (price : ℚ)
    (atrI : Option ℚ) (sig : Int) :
    (entryStep cfg st i price atrI sig).trades = st.trades := by
  unfold entryStep
  cases st.pos with
  | none =>
    by_cases hs : sig ≠ 0
    · simp [hs]
    · simp [hs]
  | some p => rfl

lemma stepBar_trades (cfg : SimCfg) (st : SimState) (i : ℕ) (price : ℚ)
    (atrI : Option ℚ) (sig : Int) :
    (stepBar cfg st i price atrI sig).trades = (exitStep st i price).trades := by
  unfold stepBar
  exact entryStep_trades cfg (exitStep st i price) i price atrI sig

lemma stepBar_pos (cfg : SimCfg) (st : SimState) (i : ℕ) (price : ℚ)
    (atrI : Option ℚ) (sig : Int) :
    (stepBar cfg st i price atrI sig).pos =
      (entryStep cfg (exitStep st i price) i price atrI sig).pos := rfl

lemma exitStep_of_none {st : SimState} {i : ℕ} {price : ℚ} (h : st.pos = none) :
    exitStep st i price = st := by
  unfold exitStep
  rw [h]

lemma exitStep_sl {st : SimState} {i : ℕ} {price : ℚ} {p : Position}
    (h : st.pos = some p) (hsl : slHitB p price = true) :
    exitStep st i price =
      ⟨st.balance + (closeTrade p i (p.sl.getD 0) true).pnl, none,
        st.trades ++ [closeTrade p i (p.sl.getD 0) true], st.equity⟩ := by
  unfold exitStep
  rw [h]
  simp [hsl]

lemma exitStep_tp {st : SimState} {i : ℕ} {price : ℚ} {p : Position}
    (h : st.pos = some p) (hsl : slHitB p price = false) (htp : tpHitB p price = true) :
    exitStep st i price =
      ⟨st.balance + (closeTrade p i (p.tp.getD 0) false).pnl, none,
        st.trades ++ [closeTrade p i (p.tp.getD 0) false], st.equity⟩ := by
  unfold exitStep
  rw [h]
  simp [hsl, htp]

lemma exitStep_hold {st : SimState} {i : ℕ} {price : ℚ} {p : Position}
    (h : st.pos = some p) (hsl : slHitB p price = false) (htp : tpHitB p price = false) :
    exitStep st i price = st := by
  unfold exitStep
  rw [h]
  simp [hsl, htp]

lemma entryStep_of_some {cfg : SimCfg} {st : SimState} {i : ℕ} {price : ℚ}
    {atrI : Option ℚ} {sig : Int} {p : Position} (h : st.pos = some p) :
    entryStep cfg st i price atrI sig = st := by
  unfold entryStep
  rw [h]

lemma entryStep_sig_zero {cfg : SimCfg} {st : SimState} {i : ℕ} {price : ℚ}
    {atrI : Option ℚ} {sig : Int} (h : st.pos = none) (hs : sig = 0) :
    entryStep cfg st i price atrI sig = st := by
  unfold entryStep
  rw [h]
  simp [hs]

lemma entryStep_open {cfg : SimCfg} {st : SimState} {i : ℕ} {price : ℚ}
    {atrI : Option ℚ} {sig : Int} (h : st.pos = none) (hs : sig ≠ 0) :
    entryStep cfg st i price atrI sig =
      { st with
          pos := some (mkPosition (if sig = 1 then .buy else .sell) price i atrI cfg
            st.balance) } := by
  unfold entryStep
  rw [h]
  simp [hs]

lemma mkPosition_entryIdx (d : Dir) (price : ℚ) (i : ℕ) (atrI : Option ℚ)
    (cfg : SimCfg) (bal : ℚ) : (mkPosition d price i atrI cfg bal).entryIdx = i := by
  unfold mkPosition
  cases atrI <;> cases d <;> rfl

lemma slHitB_isSome {p : Position} {price : ℚ} (h : slHitB p price = true) :
    p.sl = some (p.sl.getD 0) := by
  cases hs : p.sl with
  | some v => rfl
  | none =>
    exfalso
    cases hd : p.dir <;> simp [slHitB, hd, hs, leLvl, geLvl] at h

lemma tpHitB_isSome {p : Position} {price : ℚ} (h : tpHitB p price = true) :
    p.tp = some (p.tp.getD 0) := by
  cases hs : p.tp with
  | some v => rfl
  | none =>
    exfalso
    cases hd : p.dir <;> simp [tpHitB, hd, hs, leLvl, geLvl] at h

lemma exitStep_pos_cases (st : SimState) (i : ℕ) (price : ℚ) :
    (exitStep st i price).pos = st.pos ∨ (exitStep st i price).pos = none := by
  cases hp : st.pos with
  | none => left; rw [exitStep_of_none hp]; exact hp
  | some p =>
    by_cases hsl : slHitB p price
    · right; rw [exitStep_sl hp hsl]
    · have hsl2 : slHitB p price = false := by simpa using hsl
      by_cases htp : tpHitB p price
      · right; rw [exitStep_tp hp hsl2 htp]
      · have htp2 : tpHitB p price = false := by simpa using htp
        left; rw [exitStep_hold hp hsl2 htp2]; exact hp

/-! ## Claim C5: exits only at the recorded stop or target, SL first -/

/-- C5: every trade emitted by a simulator step closes the stored position
at exactly its recorded `sl` or `tp` value (with matching reason and with
the entry price, index and lot copied from the position); when the close
price of the bar breaches both levels, the SL branch of the `if/elif` wins,
so the trade closes at the stop with reason SL; and the position record
itself is never revised — a surviving position is the identical record, any
other open position is one freshly created on this bar. -/
theorem C5_thm (cfg : SimCfg) (st : SimState) (i : ℕ) (price : ℚ)
    (atrI : Option ℚ) (sig : Int) :
    (∀ t ∈ (stepBar cfg st i price atrI sig).trades,
        t ∈ st.trades ∨
          ∃ p, st.pos = some p ∧ t.entryIdx = p.entryIdx ∧
            t.entryPrice = p.entryPrice ∧ t.lot = p.lot ∧
            ((p.sl = some t.exitPrice ∧ t.reason = true) ∨
              (p.tp = some t.exitPrice ∧ t.reason = false))) ∧
    (∀ p, st.pos = some p → slHitB p price = true → tpHitB p price = true →
        (stepBar cfg st i price atrI sig).trades =
          st.trades ++ [closeTrade p i (p.sl.getD 0) true] ∧
        p.sl = some ((closeTrade p i (p.sl.getD 0) true).exitPrice) ∧
        (closeTrade p i (p.sl.getD 0) true).reason = true) ∧
    (∀ p', (stepBar cfg st i price atrI sig).pos = some p' →
        st.pos = some p' ∨ p'.entryIdx = i) := by
  refine ⟨?_, ?_, ?_⟩
  · intro t ht
    rw [stepBar_trades] at ht
    cases hpos : st.pos with
    | none =>
      left
      rwa [exitStep_of_none hpos] at ht
    | some p =>
      by_cases hsl : slHitB p price
      · rw [exitStep_sl hpos hsl] at ht
        rcases List.mem_append.mp ht with h | h
        · exact Or.inl h
        · right
          have heq : t = closeTrade p i (p.sl.getD 0) true := List.mem_singleton.mp h
          subst heq
          exact ⟨p, rfl, rfl, rfl, rfl, Or.inl ⟨slHitB_isSome hsl, rfl⟩⟩
      · by_cases htp : tpHitB p price
        · rw [exitStep_tp hpos (Bool.not_eq_true _ ▸ hsl) htp] at ht
          rcases List.mem_append.mp ht with h | h
          · exact Or.inl h
          · right
            have heq : t = closeTrade p i (p.tp.getD 0) false := List.mem_singleton.mp h
            subst heq
            exact ⟨p, rfl, rfl, rfl, rfl, Or.inr ⟨tpHitB_isSome htp, rfl⟩⟩
        · rw [exitStep_hold hpos (Bool.not_eq_true _ ▸ hsl) (Bool.not_eq_true _ ▸ htp)]
            at ht
          exact Or.inl ht
  · intro p hpos hsl htp
    refine ⟨?_, slHitB_isSome hsl, rfl⟩
    rw [stepBar_trades, exitStep_sl hpos hsl]
  · intro p' hp'
    rw [stepBar_pos] at hp'
    cases h1 : (exitStep st i price).pos with
    | some q =>
      rw [entryStep_of_some h1] at hp'
      rw [h1] at hp'
      rcases exitStep_pos_cases st i price with h2 | h2
      · left
        rw [← h2, h1, hp']
      · rw [h1] at h2
        cases h2
    | none =>
      by_cases hs : sig = 0
      · rw [entryStep_sig_zero h1 hs, h1] at hp'
        cases hp'
      · rw [entryStep_open h1 hs] at hp'
        simp at hp'
        right
        rw [← hp']
        exact mkPosition_entryIdx _ price i atrI cfg _

/-- A concrete long position, both of whose exit levels are breached by a
close price of 1 (entry 2, stop 1, target 1). -/
def pW : Position := ⟨Dir.buy, 2, 0, some 1, some 1, 1⟩

def stW : SimState := ⟨10000, some pW, [], []⟩

def cfgW : SimCfg := ⟨1, 2, 4⟩

/-- Witness for `C5_thm`: a state holding a long position whose stop and
target are both breached by the close of the bar; the step closes it at the
stop with reason SL. -/
theorem C5_wit :
    (stepBar cfgW stW 1 1 none 0).trades =
      stW.trades ++ [closeTrade pW 1 (pW.sl.getD 0) true] ∧
    pW.sl = some ((closeTrade pW 1 (pW.sl.getD 0) true).exitPrice) ∧
    (closeTrade pW 1 (pW.sl.getD 0) true).reason = true :=
  (C5_thm cfgW stW 1 1 none 0).2.1 pW rfl (by with_unfolding_all decide)
    (by with_unfolding_all decide)

/-! ## Claim C6: at most one position, entries only while flat -/

/-- Number of open positions held by the simulator state. -/
def openCount : Option Position → ℕ
  | none => 0
  | some _ => 1

/-- C6: after any simulator step at most one position is open; a position
whose levels are not breached survives the bar unchanged, with the signal
of that bar ignored (no pyramiding, no flip); the open position changes
across the entry check only if the simulator is flat after the exit check
of the same bar and the signal is nonzero, in which case the new position
is created on this very bar; in particular the bar that closes a position
by stop-loss is eligible for immediate re-entry. -/
theorem C6_thm (cfg : SimCfg) (st : SimState) (i : ℕ) (price : ℚ)
    (atrI : Option ℚ) (sig : Int) :
    openCount (stepBar cfg st i price atrI sig).pos ≤ 1 ∧
    (∀ p, st.pos = some p → slHitB p price = false → tpHitB p price = false →
      (stepBar cfg st i price atrI sig).pos = some p) ∧
    ((stepBar cfg st i price atrI sig).pos ≠ (exitStep st i price).pos →
      (exitStep st i price).pos = none ∧ sig ≠ 0 ∧
      ∃ q, (stepBar cfg st i price atrI sig).pos = some q ∧ q.entryIdx = i) ∧
    (∀ p, st.pos = some p → slHitB p price = true → sig ≠ 0 →
      ∃ q, (stepBar cfg st i price atrI sig).pos = some q ∧ q.entryIdx = i) := by
  refine ⟨?_, ?_, ?_, ?_⟩
  · cases h : (stepBar cfg st i price atrI sig).pos <;> simp [openCount]
  · intro p hp hsl htp
    rw [stepBar_pos, exitStep_hold hp hsl htp, entryStep_of_some hp]
    exact hp
  · intro hne
    rw [stepBar_pos] at hne ⊢
    cases h1 : (exitStep st i price).pos with
    | some q =>
      exact absurd (by rw [entryStep_of_some h1, h1]) hne
    | none =>
      by_cases hs : sig = 0
      · exact absurd (by rw [entryStep_sig_zero h1 hs, h1]) hne
      · refine ⟨rfl, hs, ?_⟩
        rw [entryStep_open h1 hs]
        exact ⟨_, rfl, mkPosition_entryIdx _ price i atrI cfg _⟩
  · intro p hp hsl hs
    rw [stepBar_pos]
    have h1 : (exitStep st i price).pos = none := by rw [exitStep_sl hp hsl]
    rw [entryStep_open h1 hs]
    exact ⟨_, rfl, mkPosition_entryIdx _ price i atrI cfg _⟩

/-- Witness for `C6_thm`: the position of `stW` is stop-hit at close 1 and
a nonzero signal re-enters on the same bar. -/
theorem C6_wit :
    ∃ q, (stepBar cfgW stW 1 1 none 1).pos = some q ∧ q.entryIdx = 1 :=
  (C6_thm cfgW stW 1 1 none 1).2.2.2 pW rfl (by with_unfolding_all decide)
    (by decide)

/-! ## Claim C8: lot sizing -/

/-- C8 (counterexample): the arithmetic of the worked example in the claim
is wrong: with balance 10000, risk 1 % and stop distance 0.005 the formula
`max(round(10000 × (1/100) / 0.005, 2), 0.01)` evaluates to 20000, not
20.0. -/
theorem C8_cex :
    lotFor 10000 1 (5 / 1000) = 20000 ∧ ¬ lotFor 10000 1 (5 / 1000) = 20 := by
  unfold lotFor round2 rhe
  norm_num

/-- The worked-example value, shared by the counterexample and the amended
theorem. -/
lemma C8_cexValue : lotFor 10000 1 (5 / 1000) = 20000 := by
  unfold lotFor round2 rhe
  norm_num

lemma lotFor_ge (b r d : ℚ) : 1 / 100 ≤ lotFor b r d := by
  unfold lotFor
  split
  · exact le_max_right _ _
  · exact le_refl _

/-- C8 (amended): at every entry with a defined ATR `a` the lot equals
`lotFor balance risk d` where `d` is the *signed* stop distance
(`entry − sl` for LONG, `sl − entry` for SHORT), which simplifies to
`a × atr_sl_multiplier` and agrees with `|entry − sl|` whenever that
product is non-negative; every lot (including the NaN-ATR case) is at
least 0.01; and the worked example evaluates to 20000.0, not 20.0. -/
theorem C8_thm (dir : Dir) (price : ℚ) (i : ℕ) (a : ℚ) (cfg : SimCfg) (bal : ℚ) :
    (mkPosition dir price i (some a) cfg bal).lot =
      lotFor bal cfg.riskPct (a * cfg.slMult) ∧
    (∀ o : Option ℚ, 1 / 100 ≤ (mkPosition dir price i o cfg bal).lot) ∧
    (0 ≤ a * cfg.slMult → dir = Dir.buy →
      |price - ((mkPosition dir price i (some a) cfg bal).sl.getD 0)| =
        a * cfg.slMult) ∧
    (0 ≤ a * cfg.slMult → dir = Dir.sell →
      |((mkPosition dir price i (some a) cfg bal).sl.getD 0) - price| =
        a * cfg.slMult) ∧
    lotFor 10000 1 (5 / 1000) = 20000 := by
  refine ⟨?_, ?_, ?_, ?_, ?_⟩
  · cases dir with
    | buy =>
      show lotFor bal cfg.riskPct (price - (price - a * cfg.slMult)) = _
      congr 1
      ring
    | sell =>
      show lotFor bal cfg.riskPct ((price + a * cfg.slMult) - price) = _
      congr 1
      ring
  · intro o
    cases o with
    | none => cases dir <;> exact le_refl _
    | some b => cases dir <;> exact lotFor_ge _ _ _
  · intro hnn hd
    subst hd
    show |price - (price - a * cfg.slMult)| = _
    rw [show price - (price - a * cfg.slMult) = a * cfg.slMult by ring]
    exact abs_of_nonneg hnn
  · intro hnn hd
    subst hd
    show |(price + a * cfg.slMult) - price| = _
    rw [show (price + a * cfg.slMult) - price = a * cfg.slMult by ring]
    exact abs_of_nonneg hnn
  · exact C8_cexValue

/-- Witness for `C8_thm` at a concrete long entry. -/
theorem C8_wit :
    (mkPosition Dir.buy (11 / 10) 0 (some (1 / 400)) ⟨1, 2, 4⟩ 10000).lot =
      lotFor 10000 1 ((1 / 400) * 2) ∧
    |(11 / 10 : ℚ) -
        ((mkPosition Dir.buy (11 / 10) 0 (some (1 / 400)) ⟨1, 2, 4⟩ 10000).sl.getD 0)| =
      (1 / 400) * 2 :=
  ⟨(C8_thm Dir.buy (11 / 10) 0 (1 / 400) ⟨1, 2, 4⟩ 10000).1,
    (C8_thm Dir.buy (11 / 10) 0 (1 / 400) ⟨1, 2, 4⟩ 10000).2.2.1 (by norm_num) rfl⟩

/-! ## Claim C9: Sharpe ratio -/

lemma returnsOf_length (equity : List ℚ) :
    (returnsOf equity).length = equity.length - 1 := by
  simp [returnsOf]

lemma specReturns_length (equity : List ℚ) :
    (specReturns equity).length = equity.length - 1 := by
  simp [specReturns]

lemma returnsOf_eq_specReturns (equity : List ℚ) (h : ∀ x ∈ equity, x ≠ 0) :
    returnsOf equity = specReturns equity := by
  apply List.ext_getElem
  · rw [returnsOf_length, specReturns_length]
  · intro i h1 h2
    rw [returnsOf_length] at h1
    rw [specReturns_length] at h2
    simp only [returnsOf, specReturns, List.getElem_map, List.getElem_zip,
      List.getElem_range]
    rw [List.getElem_tail]
    rw [List.getD_eq_getElem equity 0 (by omega), List.getD_eq_getElem equity 0 (by omega)]
    have hmem : equity[i] ∈ equity := List.getElem_mem (by omega)
    have hne : equity[i] ≠ 0 := h _ hmem
    field_simp

/-- C9 (counterexample): on the two-point equity curve `[10000, 10100]`
there is exactly one return, so the source reports a Sharpe ratio of 0,
while the formula of the claim (mean/std with the epsilon guard, times
√252) evaluates to a strictly positive number; the claim promises 0 only
for curves with fewer than 2 points, so the two sides disagree here. -/
theorem C9_cex :
    sharpe [10000, 10100] = 0 ∧ ¬ sharpeSpec [10000, 10100] = 0 := by
  constructor
  · unfold sharpe
    rw [if_neg]
    rw [returnsOf_length]
    decide
  · unfold sharpeSpec
    rw [if_neg (by norm_num)]
    have hr : specReturns [10000, 10100] = [1 / 100] := by
      norm_num [specReturns, List.range_succ]
    rw [hr]
    have hv : npVar [(1 : ℚ) / 100] = 0 := by
      norm_num [npVar, npMean]
    have hs : npStd [(1 : ℚ) / 100] = 0 := by
      rw [npStd, hv]
      simp
    have hm : npMean [(1 : ℚ) / 100] = 1 / 100 := by
      norm_num [npMean]
    rw [hs, hm]
    have hpos : (0 : ℝ) < ((1 / 100 : ℚ) : ℝ) / (0 + 1 / 10 ^ 10) * Real.sqrt 252 := by
      apply mul_pos
      · apply div_pos
        · norm_num
        · norm_num
      · exact Real.sqrt_pos.mpr (by norm_num)
    exact ne_of_gt hpos

/-- C9 (amended): the reported Sharpe ratio equals the spec formula (with
`returns[t] = equity[t]/equity[t-1] − 1` and the epsilon-guarded standard
deviation) only for equity curves with *more than two* points; for two or
fewer points — not just fewer than two — the source reports 0.  The
equality needs every equity value nonzero, since the per-step returns
divide by the previous equity. -/
theorem C9_thm (equity : List ℚ) (h : ∀ x ∈ equity, x ≠ 0) :
    sharpe equity = sharpeSpecAmended equity := by
  unfold sharpe sharpeSpecAmended
  rw [returnsOf_eq_specReturns equity h]
  rcases Nat.lt_or_ge 2 equity.length with h2 | h2
  · rw [if_pos, if_neg (by omega)]
    rw [specReturns_length]
    omega
  · rw [if_neg, if_pos (by omega)]
    rw [specReturns_length]
    omega

/-- Witness for `C9_thm` at a four-point curve (Sharpe genuinely computed). -/
theorem C9_wit : sharpe [1, 2, 4, 8] = sharpeSpecAmended [1, 2, 4, 8] :=
  C9_thm [1, 2, 4, 8] (by norm_num)

/-! ## Concrete configuration fixtures -/

/-- Bars driving the full pipeline into a degenerate entry: a rise, a small
dip, then a flat tail with zero true range.  At index 4 the signal rule
fires BUY (macd_hist > 0, rsi = 0, ema_fast > ema_slow, adx = atr = 0
passing the zero thresholds) with ATR exactly 0, so the position opens with
`sl = tp = entry = 1.9`; the close of bar 5 then breaches both levels. -/
def df10 : List Bar :=
  [flatBar 1, flatBar 2, flatBar (19 / 10), flatBar (19 / 10), flatBar (19 / 10),
    flatBar (19 / 10)]

/-- The profile for `df10` (all fields recognised by the engine). -/
def p10 : Profile := ⟨3, 30, 70, 2, 4, 4, 2, 2, 2, 0, 2, 0, 2, 2⟩

/-- The same profile as a raw configuration dictionary, fully populated. -/
def rp10 : RawProfile :=
  ⟨some 3, some 30, some 70, some 2, some 4, some 4, some 2, some 2, some 2,
    some 0, some 2, some 0, some 2, some 2⟩

def classicName : String := "classic"

/-- A config whose three top-level options are all absent — the engine
silently falls back to `risk_percentage = 1`, `atr_sl_multiplier = 2`,
`atr_tp_multiplier = 4`. -/
def cfg10 : Config := ⟨[(classicName, rp10)], none, none, none⟩

/-- Two bars: too short for any rolling window, so zero signals and zero
trades. -/
def dfTwo : List Bar := [flatBar 1, flatBar 2]

/-- The raw profile with its required `rsi.period` removed. -/
def rpMissing : RawProfile := { rp10 with rsiPeriod := none }

def cfgMissing : Config := ⟨[(classicName, rpMissing)], some 1, some 2, some 4⟩

lemma except_bind_ok {ε α β : Type} (a : α) (f : α → Except ε β) :
    (Except.ok a : Except ε α) >>= f = f a := rfl

lemma except_bind_error {ε α β : Type} (e : ε) (f : α → Except ε β) :
    (Except.error e : Except ε α) >>= f = Except.error e := rfl

/-! ## Claim C3: empty input series -/

/-- C3 (counterexample): running the backtest on an *empty* bar series is
not fatal — it completes normally and returns exactly the neutral
zero-trade metrics record with `final_balance = initial_balance`, the very
same record a non-empty zero-trade run returns, so the two outcomes are
not distinguishable. -/
theorem C3_cex :
    runBacktest [] cfg10 classicName = .ok ⟨neutralMetrics 10000, [], 0⟩ := by
  with_unfolding_all rfl

/-- C3 (amended): an empty bar series is *not* fatal: for any resolvable
profile the run completes and returns the neutral metrics record (initial
balance 10000 preserved), which is exactly what `compute_metrics` returns
for any zero-trade run; the two outcomes are therefore indistinguishable
from the result record. -/
theorem C3_thm (c : Config) (name : String) (rp : RawProfile) (p : Profile)
    (h1 : lookupProfile c name = some rp) (h2 : readProfile rp = .ok p) :
    runBacktest [] c name = .ok ⟨neutralMetrics 10000, [], 0⟩ ∧
    (∀ (equity : List ℚ) (init : ℚ),
      computeMetrics [] equity init = neutralMetrics init) ∧
    (∀ init : ℚ, (neutralMetrics init).finalBalance = init ∧
      (neutralMetrics init).totalTrades = 0) := by
  refine ⟨?_, ?_, ?_⟩
  · unfold runBacktest
    rw [h1]
    simp only [h2, except_bind_ok]
    with_unfolding_all rfl
  · intro equity init
    with_unfolding_all rfl
  · intro init
    exact ⟨rfl, rfl⟩

/-- Witness for `C3_thm` at the concrete configuration. -/
theorem C3_wit :
    runBacktest [] cfg10 classicName = .ok ⟨neutralMetrics 10000, [], 0⟩ ∧
    (∀ (equity : List ℚ) (init : ℚ),
      computeMetrics [] equity init = neutralMetrics init) ∧
    (∀ init : ℚ, (neutralMetrics init).finalBalance = init ∧
      (neutralMetrics init).totalTrades = 0) :=
  C3_thm cfg10 classicName rp10 p10 (by with_unfolding_all rfl)
    (by with_unfolding_all rfl)

/-! ## Claim C4: missing configuration options -/

/-- C4 (counterexample): `cfg10` has no `risk_percentage`,
`atr_sl_multiplier` or `atr_tp_multiplier` — recognised options of the
StrategyProfile — yet the run does not fail fast: the values are silently
defaulted to 1, 2 and 4 and the backtest completes normally. -/
theorem C4_cex :
    cfg10.riskPercentage = none ∧ cfg10.atrSlMultiplier = none ∧
    cfg10.atrTpMultiplier = none ∧
    riskPct cfg10 = 1 ∧ slMult cfg10 = 2 ∧ tpMult cfg10 = 4 ∧
    runBacktest dfTwo cfg10 classicName = .ok ⟨neutralMetrics 10000, [], 0⟩ := by
  refine ⟨rfl, rfl, rfl, rfl, rfl, rfl, ?_⟩
  with_unfolding_all rfl

lemma readProfile_error_of_incomplete (rp : RawProfile)
    (h : profileComplete rp = false) :
    ∃ k, readProfile rp = .error (.keyError k) := by
  cases hA : rp.rsiPeriod with
  | none =>
    exact ⟨.rsiPeriod, by simp [readProfile, getKey, hA, except_bind_error]⟩
  | some vA =>
  cases hB : rp.emaFastSpan with
  | none =>
    exact ⟨.emaFastSpan,
      by simp [readProfile, getKey, hA, hB, except_bind_ok, except_bind_error]⟩
  | some vB =>
  cases hC : rp.emaSlowSpan with
  | none =>
    exact ⟨.emaSlowSpan,
      by simp [readProfile, getKey, hA, hB, hC, except_bind_ok, except_bind_error]⟩
  | some vC =>
  cases hD : rp.macdFast with
  | none =>
    exact ⟨.macdFast,
      by simp [readProfile, getKey, hA, hB, hC, hD, except_bind_ok, except_bind_error]⟩
  | some vD =>
  cases hE : rp.macdSlow with
  | none =>
    exact ⟨.macdSlow,
      by simp [readProfile, getKey, hA, hB, hC, hD, hE, except_bind_ok,
        except_bind_error]⟩
  | some vE =>
  cases hF : rp.macdSignal with
  | none =>
    exact ⟨.macdSignal,
      by simp [readProfile, getKey, hA, hB, hC, hD, hE, hF, except_bind_ok,
        except_bind_error]⟩
  | some vF =>
  cases hG : rp.atrPeriod with
  | none =>
    exact ⟨.atrPeriod,
      by simp [readProfile, getKey, hA, hB, hC, hD, hE, hF, hG, except_bind_ok,
        except_bind_error]⟩
  | some vG =>
  cases hH : rp.adxPeriod with
  | none =>
    exact ⟨.adxPeriod,
      by simp [readProfile, getKey, hA, hB, hC, hD, hE, hF, hG, hH, except_bind_ok,
        except_bind_error]⟩
  | some vH =>
  cases hI : rp.bbPeriod with
  | none =>
    exact ⟨.bbPeriod,
      by simp [readProfile, getKey, hA, hB, hC, hD, hE, hF, hG, hH, hI,
        except_bind_ok, except_bind_error]⟩
  | some vI =>
  cases hJ : rp.bbStdDev with
  | none =>
    exact ⟨.bbStdDev,
      by simp [readProfile, getKey, hA, hB, hC, hD, hE, hF, hG, hH, hI, hJ,
        except_bind_ok, except_bind_error]⟩
  | some vJ =>
  cases hK : rp.adxMinStrength with
  | none =>
    exact ⟨.adxMinStrength,
      by simp [readProfile, getKey, hA, hB, hC, hD, hE, hF, hG, hH, hI, hJ, hK,
        except_bind_ok, except_bind_error]⟩
  | some vK =>
  cases hL : rp.atrMinVol with
  | none =>
    exact ⟨.atrMinVol,
      by simp [readProfile, getKey, hA, hB, hC, hD, hE, hF, hG, hH, hI, hJ, hK, hL,
        except_bind_ok, except_bind_error]⟩
  | some vL =>
  cases hM : rp.rsiBuy with
  | none =>
    exact ⟨.rsiBuy,
      by simp [readProfile, getKey, hA, hB, hC, hD, hE, hF, hG, hH, hI, hJ, hK, hL,
        hM, except_bind_ok, except_bind_error]⟩
  | some vM =>
  cases hN : rp.rsiSell with
  | none =>
    exact ⟨.rsiSell,
      by simp [readProfile, getKey, hA, hB, hC, hD, hE, hF, hG, hH, hI, hJ, hK, hL,
        hM, hN, except_bind_ok, except_bind_error]⟩
  | some vN =>
  exact absurd h (by
    simp [profileComplete, hA, hB, hC, hD, hE, hF, hG, hH, hI, hJ, hK, hL, hM, hN])

/-- C4 (amended): a StrategyProfile missing one of the nested required
fields does abort the run with a `KeyError` before any trade is simulated;
but `risk_percentage`, `atr_sl_multiplier` and `atr_tp_multiplier` are read
from the top-level config with silent defaults 1.0, 2 and 4, so a run with
those options absent behaves exactly like one with the defaults written
out — it does not fail fast. -/
theorem C4_thm (df : List Bar) (c : Config) (name : String) (rp : RawProfile)
    (h1 : lookupProfile c name = some rp) (h2 : profileComplete rp = false) :
    (∃ k, runBacktest df c name = .error (.keyError k)) ∧
    (∀ (dfx : List Bar) (cx : Config) (namex : String),
      runBacktest dfx
          { cx with
              riskPercentage := none
              atrSlMultiplier := none
              atrTpMultiplier := none } namex =
        runBacktest dfx
          { cx with
              riskPercentage := some 1
              atrSlMultiplier := some 2
              atrTpMultiplier := some 4 } namex) := by
  constructor
  · rcases readProfile_error_of_incomplete rp h2 with ⟨k, hk⟩
    refine ⟨k, ?_⟩
    unfold runBacktest
    rw [h1]
    simp only [hk, except_bind_error]
  · intro dfx cx namex
    rfl

/-- Witness for `C4_thm`: the profile with `rsi.period` removed aborts. -/
theorem C4_wit :
    ∃ k, runBacktest [] cfgMissing classicName = .error (.keyError k) :=
  (C4_thm [] cfgMissing classicName rpMissing (by with_unfolding_all rfl) rfl).1

/-! ## Claim C10: entry ATR and exit-level geometry -/

/-- C10 (counterexample): on `df10`/`p10` the pipeline opens a long at bar
4 with ATR = 0, hence `sl = tp = entry = 1.9`; the close of bar 5 (also
1.9) breaches *both* the stop and the target of this single position, which
the claim asserts can never happen (the run then closes at the stop by the
SL-first tie-break). -/
theorem C10_cex :
    (simulateN cfgW df10 (atr p10 df10) (signalAt p10 df10) 10000 5).pos =
      some ⟨Dir.buy, 19 / 10, 4, some (19 / 10), some (19 / 10), 1 / 100⟩ ∧
    slHitB ⟨Dir.buy, 19 / 10, 4, some (19 / 10), some (19 / 10), 1 / 100⟩
      (closeD df10 5) = true ∧
    tpHitB ⟨Dir.buy, 19 / 10, 4, some (19 / 10), some (19 / 10), 1 / 100⟩
      (closeD df10 5) = true ∧
    (simulateTrades cfgW p10 df10 10000).trades =
      [⟨4, 5, Dir.buy, 19 / 10, 19 / 10, 1 / 100, 0, true⟩] := by
  set_option maxRecDepth 8000 in
  with_unfolding_all decide

lemma tr_nonneg (df : List Bar) (hclean : lowD df 0 ≤ highD df 0) (j : ℕ) :
    0 ≤ tr df j := by
  cases j with
  | zero =>
    unfold tr
    exact sub_nonneg.mpr hclean
  | succ n =>
    unfold tr
    exact le_trans (abs_nonneg _) (le_trans (le_max_left _ _) (le_max_right _ _))

lemma mapM_option_nonneg {α : Type} {f : α → Option ℚ}
    (hf : ∀ a v, f a = some v → 0 ≤ v) :
    ∀ (l : List α) (vs : List ℚ), l.mapM f = some vs → ∀ v ∈ vs, 0 ≤ v := by
  intro l
  induction l with
  | nil =>
    intro vs h v hv
    rw [List.mapM_nil] at h
    cases h
    cases hv
  | cons x xs ih =>
    intro vs h v hv
    rw [List.mapM_cons] at h
    cases hx : f x with
    | none =>
      rw [hx] at h
      simp at h
    | some y =>
      rw [hx] at h
      cases hxs : xs.mapM f with
      | none =>
        rw [hxs] at h
        simp at h
      | some ys =>
        rw [hxs] at h
        simp at h
        rw [← h] at hv
        rcases List.mem_cons.mp hv with h1 | h1
        · rw [h1]
          exact hf x y hx
        · exact ih ys hxs v h1

lemma rollingMean_nonneg {n i : ℕ} {a : ℚ} (f : ℕ → Option ℚ)
    (hf : ∀ j v, f j = some v → 0 ≤ v) (h : rollingMean n f i = some a) :
    0 ≤ a := by
  unfold rollingMean at h
  split at h
  · cases hm : (List.range n).mapM (fun k => f (i + 1 - n + k)) with
    | none =>
      rw [hm] at h
      cases h
    | some vs =>
      rw [hm] at h
      simp at h
      rw [← h]
      apply div_nonneg
      · apply List.sum_nonneg
        intro v hv
        exact mapM_option_nonneg (fun k w hk => hf _ w hk) _ vs hm v hv
      · exact Nat.cast_nonneg n
  · cases h

lemma atr_nonneg (p : Profile) (df : List Bar) {i : ℕ} {a : ℚ}
    (hclean : lowD df 0 ≤ highD df 0) (h : atr p df i = some a) : 0 ≤ a := by
  refine rollingMean_nonneg (inRange df (tr df)) ?_ h
  intro j v hj
  unfold inRange at hj
  split at hj
  · cases hj
    exact tr_nonneg df hclean j
  · cases hj

lemma validAt_of_signalAt_ne (p : Profile) (df : List Bar) (i : ℕ)
    (h : signalAt p df i ≠ 0) : validAt p df i = true := by
  by_cases hs : sellCond p df i = true
  · unfold sellCond at hs
    rw [Bool.and_eq_true] at hs
    exact hs.2
  · by_cases hb : buyCond p df i = true
    · unfold buyCond at hb
      rw [Bool.and_eq_true] at hb
      exact hb.2
    · exfalso
      apply h
      unfold signalAt
      rw [if_neg hs, if_neg hb]

lemma atr_some_of_valid (p : Profile) (df : List Bar) (i : ℕ)
    (h : validAt p df i = true) : ∃ a, atr p df i = some a ∧ p.atrMinVol ≤ a := by
  unfold validAt at h
  rw [Bool.and_eq_true] at h
  have h2 := h.2
  cases ha : atr p df i with
  | none =>
    rw [ha] at h2
    simp [oGe] at h2
  | some a =>
    rw [ha] at h2
    refine ⟨a, rfl, ?_⟩
    simpa [oGe] using h2

/-- The position `simulate_trades` constructs at bar `i` when the signal of
the pipeline is nonzero and the simulator is flat: direction from the sign
of the signal, entry at the close of the bar, levels from the ATR column. -/
def entryPos (cfg : SimCfg) (p : Profile) (df : List Bar) (i : ℕ) (bal : ℚ) :
    Position :=
  mkPosition (if signalAt p df i = 1 then .buy else .sell) (closeD df i) i
    (atr p df i) cfg bal

/-- C10 (amended): at every pipeline entry the ATR is defined and passed
the volatility filter; it is non-negative provided bar 0 is a well-formed
OHLC bar (`low ≤ high` — every later true range is non-negative
unconditionally); with the non-negative multipliers a LONG entry satisfies
`sl ≤ entry ≤ tp` and a SHORT entry `tp ≤ entry ≤ sl`; but a single close
*can* still breach both levels — exactly when `atr × multiplier = 0`, in
which case `sl = entry = tp` and the close equals the entry (the SL-first
tie-break then closes at the stop, as `C10_cex` exhibits). -/
theorem C10_thm (p : Profile) (df : List Bar) (cfg : SimCfg) (i : ℕ) (bal : ℚ)
    (hclean : lowD df 0 ≤ highD df 0) (hsm : 0 ≤ cfg.slMult) (htm : 0 ≤ cfg.tpMult)
    (hsig : signalAt p df i ≠ 0) :
    ∃ a, atr p df i = some a ∧ 0 ≤ a ∧ p.atrMinVol ≤ a ∧
      ((entryPos cfg p df i bal).dir = Dir.buy →
        (entryPos cfg p df i bal).sl = some (closeD df i - a * cfg.slMult) ∧
        (entryPos cfg p df i bal).tp = some (closeD df i + a * cfg.tpMult) ∧
        closeD df i - a * cfg.slMult ≤ closeD df i ∧
        closeD df i ≤ closeD df i + a * cfg.tpMult) ∧
      ((entryPos cfg p df i bal).dir = Dir.sell →
        (entryPos cfg p df i bal).sl = some (closeD df i + a * cfg.slMult) ∧
        (entryPos cfg p df i bal).tp = some (closeD df i - a * cfg.tpMult) ∧
        closeD df i - a * cfg.tpMult ≤ closeD df i ∧
        closeD df i ≤ closeD df i + a * cfg.slMult) ∧
      (∀ c, slHitB (entryPos cfg p df i bal) c = true →
        tpHitB (entryPos cfg p df i bal) c = true →
        a * cfg.slMult = 0 ∧ a * cfg.tpMult = 0 ∧ c = closeD df i) ∧
      (∀ st : SimState, st.pos = none → st.balance = bal →
        (entryStep cfg st i (closeD df i) (atr p df i) (signalAt p df i)).pos =
          some (entryPos cfg p df i bal)) := by
  have hval := validAt_of_signalAt_ne p df i hsig
  obtain ⟨a, ha, hmin⟩ := atr_some_of_valid p df i hval
  have h0a : 0 ≤ a := atr_nonneg p df hclean ha
  have hsm0 : 0 ≤ a * cfg.slMult := mul_nonneg h0a hsm
  have htm0 : 0 ≤ a * cfg.tpMult := mul_nonneg h0a htm
  have hep : entryPos cfg p df i bal =
      mkPosition (if signalAt p df i = 1 then .buy else .sell) (closeD df i) i
        (some a) cfg bal := by
    rw [entryPos, ha]
  refine ⟨a, ha, h0a, hmin, ?_, ?_, ?_, ?_⟩
  · intro hdir
    by_cases hd : signalAt p df i = 1
    · rw [hep, if_pos hd]
      exact ⟨rfl, rfl, sub_le_self _ hsm0, le_add_of_nonneg_right htm0⟩
    · rw [hep, if_neg hd] at hdir
      simp [mkPosition] at hdir
  · intro hdir
    by_cases hd : signalAt p df i = 1
    · rw [hep, if_pos hd] at hdir
      simp [mkPosition] at hdir
    · rw [hep, if_neg hd]
      exact ⟨rfl, rfl, sub_le_self _ htm0, le_add_of_nonneg_right hsm0⟩
  · intro c hslh htph
    rw [hep] at hslh htph
    by_cases hd : signalAt p df i = 1
    · rw [if_pos hd] at hslh htph
      simp [slHitB, tpHitB, mkPosition, leLvl, geLvl] at hslh htph
      refine ⟨by linarith, by linarith, by linarith⟩
    · rw [if_neg hd] at hslh htph
      simp [slHitB, tpHitB, mkPosition, leLvl, geLvl] at hslh htph
      refine ⟨by linarith, by linarith, by linarith⟩
  · intro st hpos hbal
    rw [entryStep_open hpos hsig]
    rw [entryPos]
    simp [hbal]

/-- Witness for `C10_thm` at the concrete pipeline entry of `df10`. -/
theorem C10_wit :
    ∃ a, atr p10 df10 4 = some a ∧ 0 ≤ a ∧ p10.atrMinVol ≤ a := by
  obtain ⟨a, h1, h2, h3, -⟩ :=
    C10_thm p10 df10 cfgW 4 10000 (by with_unfolding_all decide)
      (by norm_num [cfgW]) (by norm_num [cfgW])
      (by set_option maxRecDepth 8000 in with_unfolding_all decide)
  exact ⟨a, h1, h2, h3⟩

end TheBot
